import Mathlib

/-!
Shallow embedding of the PredictDuel market settlement engine
(src/solana-program/programs/predict-duel/src/lib.rs).

Modelling conventions:
* u64 / u32 / u128 machine integers are `Nat`; the Rust `as u64` cast in
  `claim_winnings` is `% 2^64`; `checked_mul` / `checked_div` on u128 are
  `Option`-valued with the exact failure conditions of the Rust methods.
* i64 timestamps are `Int` (only compared, never added, so no wrap concerns).
* `Pubkey` identities are `Nat`.  The Anchor account store for `Participant`
  records (one PDA per (market, bettor), zero-initialized, detected via the
  `participant.market == Pubkey::default()` sentinel) is modelled as lookup in
  a `List Participant`: absent from the list = fresh zeroed account.
* The `question` field is kept as a `String`; its length check models
  `question.len() <= 200`.
* Market fields `category`, `market_type`, `bump`, `vault_bump`, and the
  participant `bump` are immutable tags irrelevant to every claim and are
  omitted.
* The vault holds exactly the pooled stakes: stake transfers credit it,
  payouts/refunds debit it.  The rent-exempt minimum deposited by the
  execution substrate at account creation is out of scope (spec section 1).
* Rust `+=` on u64/u32 fields panics on overflow under the standard Anchor
  build profile (overflow-checks enabled); a panic aborts the whole
  transaction.  The transition system (`applyOp`) therefore guards each
  `place_bet` step with the corresponding no-overflow conditions
  (`betGuards`) and treats an overflow as a failed operation.
-/

inductive MarketStatus
  | Pending
  | Active
  | Resolved
  | Cancelled
deriving DecidableEq

inductive PredictDuelError
  | QuestionTooLong
  | StakeTooLow
  | InvalidDeadline
  | MarketNotActive
  | MarketExpired
  | UnauthorizedResolver
  | MarketNotExpired
  | MarketNotResolved
  | AlreadyClaimed
  | NoOutcome
  | NotAWinner
  | CannotCancel
  | MarketNotCancelled
deriving DecidableEq

/-- Market account state (struct `Market` in lib.rs, classification tags and
PDA bumps omitted). -/
structure Market where
  creator : Nat
  market_index : Nat
  question : String
  stake_amount : Nat
  deadline : Int
  status : MarketStatus
  pool_size : Nat
  yes_count : Nat
  no_count : Nat
  yes_pool : Nat
  no_pool : Nat
  total_participants : Nat
  outcome : Option Bool
  created_at : Int
deriving DecidableEq

/-- Participant account state (struct `Participant` in lib.rs; the `market`
back-reference and bump are represented by membership in the market state). -/
structure Participant where
  bettor : Nat
  prediction : Bool
  stake : Nat
  claimed : Bool
deriving DecidableEq

/-- One market together with its participant records and the lamport balance
of its escrow vault. -/
structure MState where
  market : Market
  parts : List Participant
  vault : Nat
deriving DecidableEq

def u64Lim : Nat := 2 ^ 64

def u32Lim : Nat := 2 ^ 32

def u128Lim : Nat := 2 ^ 128

/-- Minimum stake: 10_000_000 lamports (0.01 SOL), the literal checked in
`create_market` and `place_bet`. -/
def MIN_STAKE : Nat := 10000000

/-- u128 `checked_mul`: `none` exactly when the mathematical product does not
fit in 128 bits. -/
def checked_mul_u128 (a b : Nat) : Option Nat :=
  if a * b < u128Lim then some (a * b) else none

/-- u128 `checked_div`: `none` exactly when the divisor is zero; otherwise the
truncating (floor) quotient. -/
def checked_div_u128 (a b : Nat) : Option Nat :=
  if b = 0 then none else some (a / b)

/-- The payout computation of `claim_winnings` lines 207-211 before the final
`as u64` cast: `(stake as u128).checked_mul(pool).checked_div(winning_pool)`. -/
def payoutCalc (stake pool winning_pool : Nat) : Option Nat :=
  (checked_mul_u128 stake pool).bind fun prod => checked_div_u128 prod winning_pool

/-- Look up the bettor's participant record (the Anchor PDA lookup keyed by
(market, bettor); `none` models a fresh zero-initialized account). -/
def findPart : List Participant → Nat → Option Participant
  | [], _ => none
  | p :: ps, b => if p.bettor = b then some p else findPart ps b

/-- Update the record(s) of bettor `b` with `f`, leaving all others alone
(the write-back of a mutated participant account). -/
def updPart (ps : List Participant) (b : Nat) (f : Participant → Participant) :
    List Participant :=
  ps.map fun p => if p.bettor = b then f p else p

/-- `create_market` (lib.rs lines 10-59): validation checks in source order,
then a fresh market with all counters zero and an empty, unfunded vault. -/
def create_market (creator market_index : Nat) (question : String)
    (stake_amount : Nat) (deadline now : Int) : Except PredictDuelError MState :=
  if ¬ question.length ≤ 200 then .error .QuestionTooLong
  else if ¬ stake_amount ≥ MIN_STAKE then .error .StakeTooLow
  else if ¬ deadline > now then .error .InvalidDeadline
  else .ok
    { market :=
      { creator := creator
        market_index := market_index
        question := question
        stake_amount := stake_amount
        deadline := deadline
        status := .Pending
        pool_size := 0
        yes_count := 0
        no_count := 0
        yes_pool := 0
        no_pool := 0
        total_participants := 0
        outcome := none
        created_at := now }
      parts := []
      vault := 0 }

/-- `place_bet` (lib.rs lines 62-135): the three `require!` checks in source
order, the stake transfer into the vault, participant init-or-update keyed on
account freshness, then the aggregate counter updates and the
Pending-to-Active promotion.  The sequential `+=` updates of the source are
written as one record construction; each field receives exactly the value the
source assigns it. -/
def place_bet (s : MState) (bettor : Nat) (prediction : Bool)
    (stake_amount : Nat) (now : Int) : Except PredictDuelError MState :=
  if ¬ (s.market.status = .Pending ∨ s.market.status = .Active) then
    .error .MarketNotActive
  else if ¬ now < s.market.deadline then .error .MarketExpired
  else if ¬ stake_amount ≥ MIN_STAKE then .error .StakeTooLow
  else
    .ok
      { market :=
        { s.market with
          pool_size := s.market.pool_size + stake_amount
          yes_count := if prediction then s.market.yes_count + 1 else s.market.yes_count
          no_count := if prediction then s.market.no_count else s.market.no_count + 1
          yes_pool :=
            if prediction then s.market.yes_pool + stake_amount else s.market.yes_pool
          no_pool :=
            if prediction then s.market.no_pool else s.market.no_pool + stake_amount
          total_participants :=
            if findPart s.parts bettor = none then s.market.total_participants + 1
            else s.market.total_participants
          status := if s.market.status = .Pending then .Active else s.market.status }
        parts :=
          if findPart s.parts bettor = none then
            s.parts ++ [{ bettor := bettor, prediction := prediction,
                          stake := stake_amount, claimed := false }]
          else
            updPart s.parts bettor fun p => { p with stake := p.stake + stake_amount }
        vault := s.vault + stake_amount }

/-- `resolve_market` (lib.rs lines 138-170). -/
def resolve_market (s : MState) (resolver : Nat) (outcome : Bool) (now : Int) :
    Except PredictDuelError MState :=
  if ¬ resolver = s.market.creator then .error .UnauthorizedResolver
  else if ¬ s.market.status = .Active then .error .MarketNotActive
  else if ¬ now ≥ s.market.deadline then .error .MarketNotExpired
  else
    .ok { s with market := { s.market with status := .Resolved, outcome := some outcome } }

/-- `claim_winnings` (lib.rs lines 173-256) acting on one participant record
and the vault balance; returns the transferred payout and the updated record.
The `as u64` cast of line 211 is the `% u64Lim` reduction. -/
def claim_winnings (m : Market) (p : Participant) (vault : Nat) :
    Except PredictDuelError (Nat × Participant) :=
  if ¬ m.status = .Resolved then .error .MarketNotResolved
  else if p.claimed then .error .AlreadyClaimed
  else
    match m.outcome with
    | none => .error .NoOutcome
    | some outcome =>
      if ¬ p.prediction = outcome then .error .NotAWinner
      else if ¬ (if outcome then m.yes_pool else m.no_pool) > 0 then
        .error .MarketNotActive
      else
        match checked_mul_u128 p.stake m.pool_size with
        | none => .error .MarketNotActive
        | some prod =>
          match checked_div_u128 prod (if outcome then m.yes_pool else m.no_pool) with
          | none => .error .MarketNotActive
          | some q =>
            if ¬ q % u64Lim > 0 then .error .MarketNotActive
            else if ¬ vault ≥ q % u64Lim then .error .MarketNotActive
            else .ok (q % u64Lim, { p with claimed := true })

/-- `cancel_market` (lib.rs lines 259-280). -/
def cancel_market (s : MState) (caller : Nat) : Except PredictDuelError MState :=
  if ¬ caller = s.market.creator then .error .UnauthorizedResolver
  else if ¬ s.market.status = .Pending then .error .CannotCancel
  else if ¬ s.market.total_participants = 0 then .error .CannotCancel
  else .ok { s with market := { s.market with status := .Cancelled } }

/-- `refund_stake` (lib.rs lines 283-328) acting on one participant record;
returns the refunded amount and the updated record.  The vault-to-bettor
transfer itself is performed by the caller (`applyOp`), which also models the
transfer failing when the vault balance is insufficient. -/
def refund_stake (m : Market) (p : Participant) :
    Except PredictDuelError (Nat × Participant) :=
  if ¬ m.status = .Cancelled then .error .MarketNotCancelled
  else if p.claimed then .error .AlreadyClaimed
  else .ok (p.stake, { p with claimed := true })

/-- One invocation of one of the five mutating instructions after creation
(`now` is the clock reading the substrate supplies to the instruction). -/
inductive Op
  | bet (bettor : Nat) (prediction : Bool) (stake : Nat) (now : Int)
  | resolve (resolver : Nat) (outcome : Bool) (now : Int)
  | cancel (caller : Nat)
  | claim (bettor : Nat)
  | refund (bettor : Nat)
deriving DecidableEq

/-- No-overflow side conditions for one `place_bet`: the u64 stake argument,
the u64 `+=` targets actually incremented, and the u32 counters actually
incremented.  Under the standard Anchor build profile an overflowing `+=`
panics and aborts the transaction, which `applyOp` models as failure. -/
def betGuards (s : MState) (b : Nat) (pr : Bool) (stk : Nat) : Bool :=
  decide (stk < u64Lim) &&
  decide (s.market.pool_size + stk < u64Lim) &&
  (if pr then
    decide (s.market.yes_pool + stk < u64Lim) && decide (s.market.yes_count + 1 < u32Lim)
  else
    decide (s.market.no_pool + stk < u64Lim) && decide (s.market.no_count + 1 < u32Lim)) &&
  (match findPart s.parts b with
   | none => decide (s.market.total_participants + 1 < u32Lim)
   | some p => decide (p.stake + stk < u64Lim))

/-- Apply one instruction to the market state.  `none` is any failed
transaction: a typed program error, a missing participant account (the PDA
does not exist, so Anchor rejects the accounts), a vault transfer failure, or
an arithmetic-overflow panic.  A failed transaction leaves no state change. -/
def applyOp (s : MState) (op : Op) : Option MState :=
  match op with
  | .bet b pr stk now =>
    if betGuards s b pr stk then
      match place_bet s b pr stk now with
      | .ok s' => some s'
      | .error _ => none
    else none
  | .resolve r oc now =>
    match resolve_market s r oc now with
    | .ok s' => some s'
    | .error _ => none
  | .cancel c =>
    match cancel_market s c with
    | .ok s' => some s'
    | .error _ => none
  | .claim b =>
    match findPart s.parts b with
    | none => none
    | some p =>
      match claim_winnings s.market p s.vault with
      | .error _ => none
      | .ok (payout, _) =>
        some { s with parts := updPart s.parts b fun q => { q with claimed := true }
                      vault := s.vault - payout }
  | .refund b =>
    match findPart s.parts b with
    | none => none
    | some p =>
      match refund_stake s.market p with
      | .error _ => none
      | .ok (refundAmt, _) =>
        if s.vault < refundAmt then none
        else
          some { s with parts := updPart s.parts b fun q => { q with claimed := true }
                        vault := s.vault - refundAmt }

/-- A failed transaction has no effect; the sequence continues. -/
def stepOp (s : MState) (op : Op) : MState :=
  (applyOp s op).getD s

/-- Run a sequence of instructions. -/
def runTrace (s : MState) (ops : List Op) : MState :=
  ops.foldl stepOp s

/-- The payout transferred by a `claim` instruction at state `s`
(zero if the transaction fails or the instruction is not a claim). -/
def payoutOf (s : MState) (op : Op) : Nat :=
  match op with
  | .claim b =>
    match findPart s.parts b with
    | none => 0
    | some p =>
      match claim_winnings s.market p s.vault with
      | .ok (payout, _) => payout
      | .error _ => 0
  | _ => 0

/-- Total lamports paid out by successful `claim_winnings` transactions along
a trace. -/
def paidAlong (s : MState) (ops : List Op) : Nat :=
  match ops with
  | [] => 0
  | op :: rest => payoutOf s op + paidAlong (stepOp s op) rest

/-- Market-level part of the C5 invariant together with the bookkeeping facts
(distinct bettors, one record per bettor) that make it inductive. -/
def StateInv (s : MState) : Prop :=
  s.market.pool_size = s.market.yes_pool + s.market.no_pool ∧
  s.market.total_participants = s.parts.length ∧
  (s.parts.map fun p => p.bettor).Nodup

/-- Freshly created market (creator 0, index 0, min stake, deadline 1000,
created at time 0), as returned by `create_market`. -/
def c1s0 : MState :=
  { market :=
    { creator := 0, market_index := 0, question := "q", stake_amount := 10000000,
      deadline := 1000, status := .Pending, pool_size := 0, yes_count := 0,
      no_count := 0, yes_pool := 0, no_pool := 0, total_participants := 0,
      outcome := none, created_at := 0 },
    parts := [], vault := 0 }

/-- Scenario A of the spec after both stakes and resolution: 10 SOL-cents on
yes by bettor 1, 20 on no by bettor 2, resolved yes at the deadline. -/
def c1s1 : MState :=
  { market :=
    { creator := 0, market_index := 0, question := "q", stake_amount := 10000000,
      deadline := 1000, status := .Resolved, pool_size := 30000000, yes_count := 1,
      no_count := 1, yes_pool := 10000000, no_pool := 20000000,
      total_participants := 2, outcome := some true, created_at := 0 },
    parts := [{ bettor := 1, prediction := true, stake := 10000000, claimed := false },
              { bettor := 2, prediction := false, stake := 20000000, claimed := false }],
    vault := 30000000 }

/-- Freshly created market, used by the C2 counterexample. -/
def c2s0 : MState :=
  { market :=
    { creator := 0, market_index := 0, question := "q", stake_amount := 10000000,
      deadline := 1000, status := .Pending, pool_size := 0, yes_count := 0,
      no_count := 0, yes_pool := 0, no_pool := 0, total_participants := 0,
      outcome := none, created_at := 0 },
    parts := [], vault := 0 }

/-- State after bettor 1 stakes 10000000 on yes. -/
def c2s1 : MState :=
  { market :=
    { creator := 0, market_index := 0, question := "q", stake_amount := 10000000,
      deadline := 1000, status := .Active, pool_size := 10000000, yes_count := 1,
      no_count := 0, yes_pool := 10000000, no_pool := 0, total_participants := 1,
      outcome := none, created_at := 0 },
    parts := [{ bettor := 1, prediction := true, stake := 10000000, claimed := false }],
    vault := 10000000 }

/-- State after bettor 1 additionally stakes 10000000 with prediction NO:
the stake is added to the yes-record while the no-pool is credited. -/
def c2s2 : MState :=
  { market :=
    { creator := 0, market_index := 0, question := "q", stake_amount := 10000000,
      deadline := 1000, status := .Active, pool_size := 20000000, yes_count := 1,
      no_count := 1, yes_pool := 10000000, no_pool := 10000000,
      total_participants := 1, outcome := none, created_at := 0 },
    parts := [{ bettor := 1, prediction := true, stake := 20000000, claimed := false }],
    vault := 20000000 }

/-- Resolved market whose winner stake (2 to the 63) vastly exceeds the winning
pool: the u128 payout quotient exceeds 64 bits and the final `as u64` cast
truncates it. -/
def c3m : Market :=
  { creator := 0, market_index := 0, question := "q", stake_amount := 10000000,
    deadline := 1000, status := .Resolved, pool_size := 9223372036854775810,
    yes_count := 1, no_count := 1, yes_pool := 2, no_pool := 9223372036854775808,
    total_participants := 1, outcome := some true, created_at := 0 }

/-- Unclaimed winning participant of `c3m` with stake 2 to the 63. -/
def c3p : Participant :=
  { bettor := 1, prediction := true, stake := 9223372036854775808, claimed := false }

/-- Well-behaved resolved market (scenario A) for the C3 amended theorem. -/
def c3wm : Market :=
  { creator := 0, market_index := 0, question := "q", stake_amount := 10000000,
    deadline := 1000, status := .Resolved, pool_size := 30000000, yes_count := 1,
    no_count := 1, yes_pool := 10000000, no_pool := 20000000,
    total_participants := 2, outcome := some true, created_at := 0 }

/-- Unclaimed winning participant of `c3wm`. -/
def c3wp : Participant :=
  { bettor := 1, prediction := true, stake := 10000000, claimed := false }

/-- Resolved market used by the C4 error-kind counterexample. -/
def c4m : Market :=
  { creator := 0, market_index := 0, question := "q", stake_amount := 10000000,
    deadline := 1000, status := .Resolved, pool_size := 30000000, yes_count := 1,
    no_count := 1, yes_pool := 10000000, no_pool := 20000000,
    total_participants := 2, outcome := some true, created_at := 0 }

/-- Unclaimed winning participant of `c4m`. -/
def c4p : Participant :=
  { bettor := 1, prediction := true, stake := 10000000, claimed := false }

/-- Resolved state used by the C6 witness. -/
def c6s : MState :=
  { market :=
    { creator := 0, market_index := 0, question := "q", stake_amount := 10000000,
      deadline := 1000, status := .Resolved, pool_size := 30000000, yes_count := 1,
      no_count := 1, yes_pool := 10000000, no_pool := 20000000,
      total_participants := 2, outcome := some true, created_at := 0 },
    parts := [{ bettor := 1, prediction := true, stake := 10000000, claimed := false },
              { bettor := 2, prediction := false, stake := 20000000, claimed := false }],
    vault := 30000000 }

/-- Active market state used by the C7 witness. -/
def c7s : MState :=
  { market :=
    { creator := 0, market_index := 0, question := "q", stake_amount := 10000000,
      deadline := 1000, status := .Active, pool_size := 10000000, yes_count := 1,
      no_count := 0, yes_pool := 10000000, no_pool := 0, total_participants := 1,
      outcome := none, created_at := 0 },
    parts := [{ bettor := 1, prediction := true, stake := 10000000, claimed := false }],
    vault := 10000000 }

/-- Pending (never staked) market state used by the C7 witness. -/
def c7pending : MState :=
  { market :=
    { creator := 0, market_index := 0, question := "q", stake_amount := 10000000,
      deadline := 1000, status := .Pending, pool_size := 0, yes_count := 0,
      no_count := 0, yes_pool := 0, no_pool := 0, total_participants := 0,
      outcome := none, created_at := 0 },
    parts := [], vault := 0 }

/-- Resolved market used by the C8 counterexample and witness. -/
def c8m : Market :=
  { creator := 0, market_index := 0, question := "q", stake_amount := 10000000,
    deadline := 1000, status := .Resolved, pool_size := 30000000, yes_count := 1,
    no_count := 1, yes_pool := 10000000, no_pool := 20000000,
    total_participants := 2, outcome := some true, created_at := 0 }

/-- Unclaimed winning participant of `c8m`. -/
def c8p : Participant :=
  { bettor := 1, prediction := true, stake := 10000000, claimed := false }

/-- Dummy state instantiating the trace binders of the C8 theorem. -/
def c8s : MState :=
  { market :=
    { creator := 0, market_index := 0, question := "q", stake_amount := 10000000,
      deadline := 1000, status := .Pending, pool_size := 0, yes_count := 0,
      no_count := 0, yes_pool := 0, no_pool := 0, total_participants := 0,
      outcome := none, created_at := 0 },
    parts := [], vault := 0 }

theorem findPart_some_bettor {ps : List Participant} {b : Nat} {p : Participant}
    (h : findPart ps b = some p) : p.bettor = b := by
  induction ps with
  | nil => simp [findPart] at h
  | cons q qs ih =>
    by_cases hq : q.bettor = b
    · simp only [findPart, hq, if_true, Option.some.injEq] at h
      rw [← h]; exact hq
    · simp only [findPart, hq, if_false] at h
      exact ih h

theorem findPart_eq_none_iff {ps : List Participant} {b : Nat} :
    findPart ps b = none ↔ ∀ p ∈ ps, p.bettor ≠ b := by
  induction ps with
  | nil => simp [findPart]
  | cons q qs ih =>
    by_cases hq : q.bettor = b
    · simp [findPart, hq]
    · simp [findPart, hq, ih]

theorem updPart_length (ps : List Participant) (b : Nat) (f : Participant → Participant) :
    (updPart ps b f).length = ps.length := by
  simp [updPart]

theorem updPart_map_bettor (ps : List Participant) (b : Nat)
    (f : Participant → Participant) (hf : ∀ p, (f p).bettor = p.bettor) :
    ((updPart ps b f).map fun p => p.bettor) = ps.map fun p => p.bettor := by
  unfold updPart
  rw [List.map_map]
  apply List.map_congr_left
  intro a _
  by_cases hq : a.bettor = b
  · simp [hq, hf]
  · simp [hq]

theorem findPart_updPart_self (ps : List Participant) (b : Nat)
    (f : Participant → Participant) (hf : ∀ p, (f p).bettor = p.bettor) :
    findPart (updPart ps b f) b = (findPart ps b).map f := by
  induction ps with
  | nil => rfl
  | cons q qs ih =>
    by_cases hq : q.bettor = b
    · simp [updPart, findPart, hq, hf]
    · simpa [updPart, findPart, hq, hf] using ih

theorem findPart_updPart_other (ps : List Participant) (b b' : Nat)
    (f : Participant → Participant) (hf : ∀ p, (f p).bettor = p.bettor)
    (hb : b' ≠ b) :
    findPart (updPart ps b f) b' = findPart ps b' := by
  induction ps with
  | nil => rfl
  | cons q qs ih =>
    simp only [updPart, List.map_cons, findPart]
    by_cases hq : q.bettor = b
    · rw [if_pos hq, if_neg (show (f q).bettor ≠ b' by rw [hf, hq]; exact Ne.symm hb),
        if_neg (show q.bettor ≠ b' by rw [hq]; exact Ne.symm hb)]
      simpa [updPart] using ih
    · rw [if_neg hq]
      by_cases hq' : q.bettor = b'
      · rw [if_pos hq', if_pos hq']
      · rw [if_neg hq', if_neg hq']
        simpa [updPart] using ih

theorem findPart_append_some {ps : List Participant} {b : Nat} {p : Participant}
    (l : List Participant) (h : findPart ps b = some p) :
    findPart (ps ++ l) b = some p := by
  induction ps with
  | nil => simp [findPart] at h
  | cons q qs ih =>
    simp only [List.cons_append, findPart] at h ⊢
    by_cases hq : q.bettor = b
    · rw [if_pos hq] at h ⊢
      exact h
    · rw [if_neg hq] at h ⊢
      exact ih h

theorem checked_mul_u128_eq_some {a b c : Nat} :
    checked_mul_u128 a b = some c ↔ a * b < u128Lim ∧ c = a * b := by
  unfold checked_mul_u128
  by_cases h : a * b < u128Lim
  · simp [h, eq_comm]
  · simp [h]

theorem checked_div_u128_eq_some {a b c : Nat} :
    checked_div_u128 a b = some c ↔ b ≠ 0 ∧ c = a / b := by
  unfold checked_div_u128
  by_cases h : b = 0
  · simp [h]
  · simp [h, eq_comm]

theorem create_market_ok_iff {c i : Nat} {q : String} {stk : Nat} {dl now : Int}
    {s : MState} :
    create_market c i q stk dl now = .ok s ↔
      q.length ≤ 200 ∧ MIN_STAKE ≤ stk ∧ now < dl ∧
      s = { market :=
            { creator := c, market_index := i, question := q, stake_amount := stk,
              deadline := dl, status := .Pending, pool_size := 0, yes_count := 0,
              no_count := 0, yes_pool := 0, no_pool := 0, total_participants := 0,
              outcome := none, created_at := now },
            parts := [], vault := 0 } := by
  unfold create_market
  by_cases h1 : q.length ≤ 200
  · rw [if_neg (not_not_intro h1)]
    by_cases h2 : MIN_STAKE ≤ stk
    · rw [if_neg (not_not_intro h2)]
      by_cases h3 : now < dl
      · rw [if_neg (not_not_intro h3)]
        simp [h1, h2, h3, eq_comm]
      · rw [if_pos h3]
        simp [h3]
    · rw [if_pos h2]
      simp [h2]
  · rw [if_pos h1]
    simp [h1]

theorem place_bet_ok_elim {s : MState} {b : Nat} {pr : Bool} {stk : Nat} {now : Int}
    {s' : MState} (h : place_bet s b pr stk now = .ok s') :
    (s.market.status = .Pending ∨ s.market.status = .Active) ∧
    now < s.market.deadline ∧
    MIN_STAKE ≤ stk ∧
    s'.vault = s.vault + stk ∧
    s'.market.pool_size = s.market.pool_size + stk ∧
    s'.market.yes_pool + s'.market.no_pool = s.market.yes_pool + s.market.no_pool + stk ∧
    s'.market.status = (if s.market.status = .Pending then .Active else s.market.status) ∧
    s'.market.outcome = s.market.outcome ∧
    s'.market.deadline = s.market.deadline ∧
    s'.market.creator = s.market.creator ∧
    (findPart s.parts b = none →
      s'.parts = s.parts ++
        [{ bettor := b, prediction := pr, stake := stk, claimed := false }] ∧
      s'.market.total_participants = s.market.total_participants + 1) ∧
    (∀ p, findPart s.parts b = some p →
      s'.parts = updPart s.parts b (fun x => { x with stake := x.stake + stk }) ∧
      s'.market.total_participants = s.market.total_participants) := by
  unfold place_bet at h
  by_cases h1 : s.market.status = MarketStatus.Pending ∨ s.market.status = MarketStatus.Active
  · rw [if_neg (not_not_intro h1)] at h
    by_cases h2 : now < s.market.deadline
    · rw [if_neg (not_not_intro h2)] at h
      by_cases h3 : MIN_STAKE ≤ stk
      · rw [if_neg (not_not_intro h3)] at h
        rw [Except.ok.injEq] at h
        subst h
        refine ⟨h1, h2, h3, rfl, rfl, ?_, rfl, rfl, rfl, rfl, ?_, ?_⟩
        · by_cases hpr : pr = true
          · subst hpr; simp; omega
          · rw [Bool.not_eq_true] at hpr; subst hpr; simp; omega
        · intro hn
          simp [hn]
        · intro p hp
          rw [hp]
          simp
      · rw [if_pos h3] at h
        exact absurd h (by simp)
    · rw [if_pos h2] at h
      exact absurd h (by simp)
  · rw [if_pos h1] at h
    exact absurd h (by simp)

theorem place_bet_ok_intro {s : MState} {b : Nat} (pr : Bool) {stk : Nat} {now : Int}
    (h1 : s.market.status = .Pending ∨ s.market.status = .Active)
    (h2 : now < s.market.deadline) (h3 : MIN_STAKE ≤ stk) :
    place_bet s b pr stk now = .ok
      { market :=
        { s.market with
          pool_size := s.market.pool_size + stk
          yes_count := if pr then s.market.yes_count + 1 else s.market.yes_count
          no_count := if pr then s.market.no_count else s.market.no_count + 1
          yes_pool := if pr then s.market.yes_pool + stk else s.market.yes_pool
          no_pool := if pr then s.market.no_pool else s.market.no_pool + stk
          total_participants :=
            if findPart s.parts b = none then s.market.total_participants + 1
            else s.market.total_participants
          status := if s.market.status = .Pending then .Active else s.market.status }
        parts :=
          if findPart s.parts b = none then
            s.parts ++ [{ bettor := b, prediction := pr, stake := stk, claimed := false }]
          else updPart s.parts b fun p => { p with stake := p.stake + stk }
        vault := s.vault + stk } := by
  unfold place_bet
  rw [if_neg (not_not_intro h1), if_neg (not_not_intro h2), if_neg (not_not_intro h3)]

theorem resolve_market_ok_iff {s : MState} {r : Nat} {oc : Bool} {now : Int}
    {s' : MState} :
    resolve_market s r oc now = .ok s' ↔
      r = s.market.creator ∧ s.market.status = .Active ∧ s.market.deadline ≤ now ∧
      s' = { s with market := { s.market with status := .Resolved, outcome := some oc } } := by
  unfold resolve_market
  by_cases h1 : r = s.market.creator
  · rw [if_neg (not_not_intro h1)]
    by_cases h2 : s.market.status = MarketStatus.Active
    · rw [if_neg (not_not_intro h2)]
      by_cases h3 : now ≥ s.market.deadline
      · rw [if_neg (not_not_intro h3)]
        simp [h1, h2, h3, eq_comm]
      · rw [if_pos h3]
        simp only [ge_iff_le] at h3
        simp [h3]
    · rw [if_pos h2]
      simp [h2]
  · rw [if_pos h1]
    simp [h1]

theorem cancel_market_ok_iff {s : MState} {c : Nat} {s' : MState} :
    cancel_market s c = .ok s' ↔
      c = s.market.creator ∧ s.market.status = .Pending ∧
      s.market.total_participants = 0 ∧
      s' = { s with market := { s.market with status := .Cancelled } } := by
  unfold cancel_market
  by_cases h1 : c = s.market.creator
  · rw [if_neg (not_not_intro h1)]
    by_cases h2 : s.market.status = MarketStatus.Pending
    · rw [if_neg (not_not_intro h2)]
      by_cases h3 : s.market.total_participants = 0
      · rw [if_neg (not_not_intro h3)]
        simp [h1, h2, h3, eq_comm]
      · rw [if_pos h3]
        simp [h3]
    · rw [if_pos h2]
      simp [h2]
  · rw [if_pos h1]
    simp [h1]

theorem claim_winnings_ok_elim {m : Market} {p : Participant} {v : Nat}
    {pay : Nat} {p' : Participant}
    (h : claim_winnings m p v = .ok (pay, p')) :
    m.status = .Resolved ∧ p.claimed = false ∧
    (∃ oc, m.outcome = some oc ∧ p.prediction = oc ∧
      0 < (if oc then m.yes_pool else m.no_pool) ∧
      p.stake * m.pool_size < u128Lim ∧
      pay = (p.stake * m.pool_size / (if oc then m.yes_pool else m.no_pool)) % u64Lim) ∧
    0 < pay ∧ pay ≤ v ∧ p' = { p with claimed := true } := by
  unfold claim_winnings at h
  by_cases h1 : m.status = MarketStatus.Resolved
  · rw [if_neg (not_not_intro h1)] at h
    by_cases h2 : p.claimed
    · rw [if_pos h2] at h
      exact absurd h (by simp)
    · rw [if_neg h2] at h
      match ho : m.outcome with
      | none =>
        rw [ho] at h
        exact absurd h (by simp)
      | some oc =>
        rw [ho] at h
        simp only [] at h
        by_cases h3 : p.prediction = oc
        · rw [if_neg (not_not_intro h3)] at h
          by_cases h4 : 0 < (if oc then m.yes_pool else m.no_pool)
          · rw [if_neg (not_not_intro h4)] at h
            match hmul : checked_mul_u128 p.stake m.pool_size with
            | none =>
              rw [hmul] at h
              exact absurd h (by simp)
            | some prod =>
              rw [hmul] at h
              simp only [] at h
              obtain ⟨hlt, hprod⟩ := checked_mul_u128_eq_some.mp hmul
              match hdiv : checked_div_u128 prod (if oc then m.yes_pool else m.no_pool) with
              | none =>
                rw [hdiv] at h
                exact absurd h (by simp)
              | some q =>
                rw [hdiv] at h
                simp only [] at h
                obtain ⟨hne, hq⟩ := checked_div_u128_eq_some.mp hdiv
                by_cases h5 : 0 < q % u64Lim
                · rw [if_neg (not_not_intro h5)] at h
                  by_cases h6 : v ≥ q % u64Lim
                  · rw [if_neg (not_not_intro h6)] at h
                    rw [Except.ok.injEq, Prod.mk.injEq] at h
                    obtain ⟨hpay, hp'⟩ := h
                    refine ⟨h1, by simpa using h2, ⟨oc, rfl, h3, h4, ?_, ?_⟩, ?_, ?_, hp'.symm⟩
                    · exact hlt
                    · rw [← hpay, hq, hprod]
                    · rw [← hpay]; exact h5
                    · rw [← hpay]; exact h6
                  · rw [if_pos h6] at h
                    exact absurd h (by simp)
                · rw [if_pos h5] at h
                  exact absurd h (by simp)
          · rw [if_pos h4] at h
            exact absurd h (by simp)
        · rw [if_pos h3] at h
          exact absurd h (by simp)
  · rw [if_pos h1] at h
    exact absurd h (by simp)

theorem refund_stake_ok_elim {m : Market} {p : Participant} {amt : Nat}
    {p' : Participant} (h : refund_stake m p = .ok (amt, p')) :
    m.status = .Cancelled ∧ p.claimed = false ∧ amt = p.stake ∧
    p' = { p with claimed := true } := by
  unfold refund_stake at h
  by_cases h1 : m.status = MarketStatus.Cancelled
  · rw [if_neg (not_not_intro h1)] at h
    by_cases h2 : p.claimed
    · rw [if_pos h2] at h
      exact absurd h (by simp)
    · rw [if_neg h2] at h
      rw [Except.ok.injEq, Prod.mk.injEq] at h
      exact ⟨h1, by simpa using h2, h.1.symm, h.2.symm⟩
  · rw [if_pos h1] at h
    exact absurd h (by simp)

theorem stepOp_account (s : MState) (op : Op) :
    payoutOf s op + (stepOp s op).vault + s.market.pool_size ≤
      s.vault + (stepOp s op).market.pool_size := by
  cases op with
  | bet b pr stk now =>
    by_cases hg : betGuards s b pr stk = true
    · cases hpb : place_bet s b pr stk now with
      | ok s' =>
        obtain ⟨-, -, -, hv, hp, -⟩ := place_bet_ok_elim hpb
        simp only [stepOp, applyOp, payoutOf, hg, if_true, hpb, Option.getD_some]
        omega
      | error e =>
        simp [stepOp, applyOp, payoutOf, hg, hpb]
    · simp [stepOp, applyOp, payoutOf, hg]
  | resolve r oc now =>
    cases hrm : resolve_market s r oc now with
    | ok s' =>
      obtain ⟨-, -, -, hs'⟩ := resolve_market_ok_iff.mp hrm
      subst hs'
      simp [stepOp, applyOp, payoutOf, hrm]
    | error e =>
      simp [stepOp, applyOp, payoutOf, hrm]
  | cancel c =>
    cases hcm : cancel_market s c with
    | ok s' =>
      obtain ⟨-, -, -, hs'⟩ := cancel_market_ok_iff.mp hcm
      subst hs'
      simp [stepOp, applyOp, payoutOf, hcm]
    | error e =>
      simp [stepOp, applyOp, payoutOf, hcm]
  | claim b =>
    cases hfp : findPart s.parts b with
    | none => simp [stepOp, applyOp, payoutOf, hfp]
    | some p =>
      cases hcw : claim_winnings s.market p s.vault with
      | ok pr =>
        obtain ⟨pay, p'⟩ := pr
        obtain ⟨-, -, -, -, hle, -⟩ := claim_winnings_ok_elim hcw
        simp only [stepOp, applyOp, payoutOf, hfp, hcw, Option.getD_some]
        omega
      | error e =>
        simp [stepOp, applyOp, payoutOf, hfp, hcw]
  | refund b =>
    cases hfp : findPart s.parts b with
    | none => simp [stepOp, applyOp, payoutOf, hfp]
    | some p =>
      cases hrf : refund_stake s.market p with
      | ok pr =>
        obtain ⟨amt, p'⟩ := pr
        by_cases hv : s.vault < amt
        · simp [stepOp, applyOp, payoutOf, hfp, hrf, hv]
        · simp only [stepOp, applyOp, payoutOf, hfp, hrf, hv, if_false, Option.getD_some]
          omega
      | error e =>
        simp [stepOp, applyOp, payoutOf, hfp, hrf]

theorem paidAlong_account (ops : List Op) : ∀ s : MState,
    paidAlong s ops + (runTrace s ops).vault + s.market.pool_size ≤
      s.vault + (runTrace s ops).market.pool_size := by
  induction ops with
  | nil =>
    intro s
    simp [paidAlong, runTrace]
  | cons op rest ih =>
    intro s
    have h1 := stepOp_account s op
    have h2 := ih (stepOp s op)
    simp only [paidAlong, runTrace, List.foldl_cons] at h2 ⊢
    omega

theorem stepOp_market_terminal (s : MState) (op : Op)
    (h : s.market.status = .Resolved ∨ s.market.status = .Cancelled) :
    (stepOp s op).market = s.market := by
  have hnp : ¬ s.market.status = .Pending := by
    rcases h with h | h <;> simp [h]
  have hna : ¬ s.market.status = .Active := by
    rcases h with h | h <;> simp [h]
  cases op with
  | bet b pr stk now =>
    have hpb : place_bet s b pr stk now = .error .MarketNotActive := by
      unfold place_bet
      rw [if_pos (by tauto)]
    by_cases hg : betGuards s b pr stk = true
    · simp [stepOp, applyOp, hg, hpb]
    · simp [stepOp, applyOp, hg]
  | resolve r oc now =>
    cases hrm : resolve_market s r oc now with
    | ok s' =>
      obtain ⟨-, h2, -, -⟩ := resolve_market_ok_iff.mp hrm
      exact absurd h2 hna
    | error e => simp [stepOp, applyOp, hrm]
  | cancel c =>
    cases hcm : cancel_market s c with
    | ok s' =>
      obtain ⟨-, h2, -, -⟩ := cancel_market_ok_iff.mp hcm
      exact absurd h2 hnp
    | error e => simp [stepOp, applyOp, hcm]
  | claim b =>
    cases hfp : findPart s.parts b with
    | none => simp [stepOp, applyOp, hfp]
    | some p =>
      cases hcw : claim_winnings s.market p s.vault with
      | ok pr =>
        obtain ⟨pay, p'⟩ := pr
        simp [stepOp, applyOp, hfp, hcw]
      | error e => simp [stepOp, applyOp, hfp, hcw]
  | refund b =>
    cases hfp : findPart s.parts b with
    | none => simp [stepOp, applyOp, hfp]
    | some p =>
      cases hrf : refund_stake s.market p with
      | ok pr =>
        obtain ⟨amt, p'⟩ := pr
        by_cases hv : s.vault < amt
        · simp [stepOp, applyOp, hfp, hrf, hv]
        · simp [stepOp, applyOp, hfp, hrf, hv]
      | error e => simp [stepOp, applyOp, hfp, hrf]

theorem runTrace_market_terminal (ops : List Op) : ∀ s : MState,
    s.market.status = .Resolved ∨ s.market.status = .Cancelled →
    (runTrace s ops).market = s.market := by
  induction ops with
  | nil =>
    intro s _
    simp [runTrace]
  | cons op rest ih =>
    intro s h
    have h1 := stepOp_market_terminal s op h
    have hst : (stepOp s op).market.status = s.market.status := by rw [h1]
    have h2 := ih (stepOp s op) (by rw [hst]; exact h)
    calc (runTrace s (op :: rest)).market
        = (runTrace (stepOp s op) rest).market := by simp [runTrace]
      _ = (stepOp s op).market := h2
      _ = s.market := h1

theorem bettor_not_mem_of_findPart_none {ps : List Participant} {b : Nat}
    (h : findPart ps b = none) : b ∉ ps.map fun p => p.bettor := by
  intro hmem
  obtain ⟨p, hp, hpb⟩ := List.mem_map.mp hmem
  exact (findPart_eq_none_iff.mp h p hp) hpb

theorem stepOp_StateInv (s : MState) (op : Op) (h : StateInv s) :
    StateInv (stepOp s op) := by
  obtain ⟨hpool, hlen, hnd⟩ := h
  cases op with
  | bet b pr stk now =>
    by_cases hg : betGuards s b pr stk = true
    · cases hpb : place_bet s b pr stk now with
      | ok s' =>
        have hstep : stepOp s (.bet b pr stk now) = s' := by
          simp [stepOp, applyOp, hg, hpb]
        rw [hstep]
        obtain ⟨-, -, -, -, hp, hyn, -, -, -, -, hnone, hsome⟩ := place_bet_ok_elim hpb
        cases hfp : findPart s.parts b with
        | none =>
          obtain ⟨hparts, htp⟩ := hnone hfp
          refine ⟨by omega, ?_, ?_⟩
          · rw [htp, hparts, List.length_append, hlen]
            simp
          · rw [hparts, List.map_append]
            rw [List.nodup_append]
            refine ⟨hnd, by simp, ?_⟩
            intro a ha hb
            simp only [List.map_cons, List.map_nil, List.mem_singleton] at hb
            subst hb
            exact bettor_not_mem_of_findPart_none hfp ha
        | some p =>
          obtain ⟨hparts, htp⟩ := hsome p hfp
          refine ⟨by omega, ?_, ?_⟩
          · rw [htp, hparts, updPart_length, hlen]
          · rw [hparts,
              updPart_map_bettor s.parts b
                (fun x => { x with stake := x.stake + stk }) (fun q => rfl)]
            exact hnd
      | error e =>
        have hstep : stepOp s (.bet b pr stk now) = s := by
          simp [stepOp, applyOp, hg, hpb]
        rw [hstep]
        exact ⟨hpool, hlen, hnd⟩
    · have hstep : stepOp s (.bet b pr stk now) = s := by
        simp [stepOp, applyOp, hg]
      rw [hstep]
      exact ⟨hpool, hlen, hnd⟩
  | resolve r oc now =>
    cases hrm : resolve_market s r oc now with
    | ok s' =>
      obtain ⟨-, -, -, hs'⟩ := resolve_market_ok_iff.mp hrm
      have hstep : stepOp s (.resolve r oc now) = s' := by
        simp [stepOp, applyOp, hrm]
      rw [hstep, hs']
      exact ⟨hpool, hlen, hnd⟩
    | error e =>
      have hstep : stepOp s (.resolve r oc now) = s := by
        simp [stepOp, applyOp, hrm]
      rw [hstep]
      exact ⟨hpool, hlen, hnd⟩
  | cancel c =>
    cases hcm : cancel_market s c with
    | ok s' =>
      obtain ⟨-, -, -, hs'⟩ := cancel_market_ok_iff.mp hcm
      have hstep : stepOp s (.cancel c) = s' := by
        simp [stepOp, applyOp, hcm]
      rw [hstep, hs']
      exact ⟨hpool, hlen, hnd⟩
    | error e =>
      have hstep : stepOp s (.cancel c) = s := by
        simp [stepOp, applyOp, hcm]
      rw [hstep]
      exact ⟨hpool, hlen, hnd⟩
  | claim b =>
    cases hfp : findPart s.parts b with
    | none =>
      have hstep : stepOp s (.claim b) = s := by
        simp [stepOp, applyOp, hfp]
      rw [hstep]
      exact ⟨hpool, hlen, hnd⟩
    | some p =>
      cases hcw : claim_winnings s.market p s.vault with
      | ok pr =>
        obtain ⟨pay, p'⟩ := pr
        have hstep : stepOp s (.claim b) =
            { s with parts := updPart s.parts b fun q => { q with claimed := true }
                     vault := s.vault - pay } := by
          simp [stepOp, applyOp, hfp, hcw]
        rw [hstep]
        refine ⟨hpool, ?_, ?_⟩
        · rw [updPart_length]
          exact hlen
        · simp only []
          rw [updPart_map_bettor s.parts b
            (fun q => { q with claimed := true }) (fun q => rfl)]
          exact hnd
      | error e =>
        have hstep : stepOp s (.claim b) = s := by
          simp [stepOp, applyOp, hfp, hcw]
        rw [hstep]
        exact ⟨hpool, hlen, hnd⟩
  | refund b =>
    cases hfp : findPart s.parts b with
    | none =>
      have hstep : stepOp s (.refund b) = s := by
        simp [stepOp, applyOp, hfp]
      rw [hstep]
      exact ⟨hpool, hlen, hnd⟩
    | some p =>
      cases hrf : refund_stake s.market p with
      | ok pr =>
        obtain ⟨amt, p'⟩ := pr
        by_cases hv : s.vault < amt
        · have hstep : stepOp s (.refund b) = s := by
            simp [stepOp, applyOp, hfp, hrf, hv]
          rw [hstep]
          exact ⟨hpool, hlen, hnd⟩
        · have hstep : stepOp s (.refund b) =
              { s with parts := updPart s.parts b fun q => { q with claimed := true }
                       vault := s.vault - amt } := by
            simp [stepOp, applyOp, hfp, hrf, hv]
          rw [hstep]
          refine ⟨hpool, ?_, ?_⟩
          · rw [updPart_length]
            exact hlen
          · simp only []
            rw [updPart_map_bettor s.parts b
              (fun q => { q with claimed := true }) (fun q => rfl)]
            exact hnd
      | error e =>
        have hstep : stepOp s (.refund b) = s := by
          simp [stepOp, applyOp, hfp, hrf]
        rw [hstep]
        exact ⟨hpool, hlen, hnd⟩

theorem runTrace_StateInv (ops : List Op) : ∀ s : MState, StateInv s →
    StateInv (runTrace s ops) := by
  induction ops with
  | nil =>
    intro s h
    simpa [runTrace] using h
  | cons op rest ih =>
    intro s h
    have h1 := stepOp_StateInv s op h
    have h2 := ih (stepOp s op) h1
    simpa [runTrace] using h2

theorem stepOp_status_cases (s : MState) (op : Op) :
    (stepOp s op).market.status = s.market.status ∨
    (s.market.status = .Pending ∧ (stepOp s op).market.status = .Active) ∨
    (s.market.status = .Active ∧ (stepOp s op).market.status = .Resolved) ∨
    (s.market.status = .Pending ∧ (stepOp s op).market.status = .Cancelled) := by
  cases op with
  | bet b pr stk now =>
    by_cases hg : betGuards s b pr stk = true
    · cases hpb : place_bet s b pr stk now with
      | ok s' =>
        obtain ⟨-, -, -, -, -, -, hst, -⟩ := place_bet_ok_elim hpb
        have hstep : stepOp s (.bet b pr stk now) = s' := by
          simp [stepOp, applyOp, hg, hpb]
        rw [hstep]
        by_cases hp : s.market.status = MarketStatus.Pending
        · right; left
          exact ⟨hp, by rw [hst, if_pos hp]⟩
        · left
          rw [hst, if_neg hp]
      | error e =>
        left
        simp [stepOp, applyOp, hg, hpb]
    · left
      simp [stepOp, applyOp, hg]
  | resolve r oc now =>
    cases hrm : resolve_market s r oc now with
    | ok s' =>
      obtain ⟨-, h2, -, hs'⟩ := resolve_market_ok_iff.mp hrm
      have hstep : stepOp s (.resolve r oc now) = s' := by
        simp [stepOp, applyOp, hrm]
      right; right; left
      refine ⟨h2, ?_⟩
      rw [hstep, hs']
    | error e =>
      left
      simp [stepOp, applyOp, hrm]
  | cancel c =>
    cases hcm : cancel_market s c with
    | ok s' =>
      obtain ⟨-, h2, -, hs'⟩ := cancel_market_ok_iff.mp hcm
      have hstep : stepOp s (.cancel c) = s' := by
        simp [stepOp, applyOp, hcm]
      right; right; right
      refine ⟨h2, ?_⟩
      rw [hstep, hs']
    | error e =>
      left
      simp [stepOp, applyOp, hcm]
  | claim b =>
    left
    cases hfp : findPart s.parts b with
    | none => simp [stepOp, applyOp, hfp]
    | some p =>
      cases hcw : claim_winnings s.market p s.vault with
      | ok pr =>
        obtain ⟨pay, p'⟩ := pr
        simp [stepOp, applyOp, hfp, hcw]
      | error e => simp [stepOp, applyOp, hfp, hcw]
  | refund b =>
    left
    cases hfp : findPart s.parts b with
    | none => simp [stepOp, applyOp, hfp]
    | some p =>
      cases hrf : refund_stake s.market p with
      | ok pr =>
        obtain ⟨amt, p'⟩ := pr
        by_cases hv : s.vault < amt
        · simp [stepOp, applyOp, hfp, hrf, hv]
        · simp [stepOp, applyOp, hfp, hrf, hv]
      | error e => simp [stepOp, applyOp, hfp, hrf]

theorem findPart_updPart_claimed_mono {ps : List Participant} {b : Nat}
    {p : Participant} (b2 : Nat) (f : Participant → Participant)
    (hfb : ∀ q, (f q).bettor = q.bettor)
    (hfc : ∀ q, q.claimed = true → (f q).claimed = true)
    (hp : findPart ps b = some p) (hc : p.claimed = true) :
    ∃ p', findPart (updPart ps b2 f) b = some p' ∧ p'.claimed = true := by
  by_cases hb : b = b2
  · subst hb
    rw [findPart_updPart_self ps b f hfb, hp]
    exact ⟨f p, rfl, hfc p hc⟩
  · rw [findPart_updPart_other ps b2 b f hfb hb, hp]
    exact ⟨p, rfl, hc⟩

theorem stepOp_claimed_mono (s : MState) (op : Op) (b : Nat) (p : Participant)
    (hp : findPart s.parts b = some p) (hc : p.claimed = true) :
    ∃ p', findPart (stepOp s op).parts b = some p' ∧ p'.claimed = true := by
  cases op with
  | bet b2 pr stk now =>
    by_cases hg : betGuards s b2 pr stk = true
    · cases hpb : place_bet s b2 pr stk now with
      | ok s' =>
        have hstep : stepOp s (.bet b2 pr stk now) = s' := by
          simp [stepOp, applyOp, hg, hpb]
        rw [hstep]
        obtain ⟨-, -, -, -, -, -, -, -, -, -, hnone, hsome⟩ := place_bet_ok_elim hpb
        cases hfp : findPart s.parts b2 with
        | none =>
          obtain ⟨hparts, -⟩ := hnone hfp
          rw [hparts]
          exact ⟨p, findPart_append_some _ hp, hc⟩
        | some q =>
          obtain ⟨hparts, -⟩ := hsome q hfp
          rw [hparts]
          exact findPart_updPart_claimed_mono b2
            (fun x => { x with stake := x.stake + stk })
            (fun x => rfl) (fun x hx => hx) hp hc
      | error e =>
        have hstep : stepOp s (.bet b2 pr stk now) = s := by
          simp [stepOp, applyOp, hg, hpb]
        rw [hstep]
        exact ⟨p, hp, hc⟩
    · have hstep : stepOp s (.bet b2 pr stk now) = s := by
        simp [stepOp, applyOp, hg]
      rw [hstep]
      exact ⟨p, hp, hc⟩
  | resolve r oc now =>
    cases hrm : resolve_market s r oc now with
    | ok s' =>
      obtain ⟨-, -, -, hs'⟩ := resolve_market_ok_iff.mp hrm
      have hstep : stepOp s (.resolve r oc now) = s' := by
        simp [stepOp, applyOp, hrm]
      rw [hstep, hs']
      exact ⟨p, hp, hc⟩
    | error e =>
      have hstep : stepOp s (.resolve r oc now) = s := by
        simp [stepOp, applyOp, hrm]
      rw [hstep]
      exact ⟨p, hp, hc⟩
  | cancel c =>
    cases hcm : cancel_market s c with
    | ok s' =>
      obtain ⟨-, -, -, hs'⟩ := cancel_market_ok_iff.mp hcm
      have hstep : stepOp s (.cancel c) = s' := by
        simp [stepOp, applyOp, hcm]
      rw [hstep, hs']
      exact ⟨p, hp, hc⟩
    | error e =>
      have hstep : stepOp s (.cancel c) = s := by
        simp [stepOp, applyOp, hcm]
      rw [hstep]
      exact ⟨p, hp, hc⟩
  | claim b2 =>
    cases hfp : findPart s.parts b2 with
    | none =>
      have hstep : stepOp s (.claim b2) = s := by
        simp [stepOp, applyOp, hfp]
      rw [hstep]
      exact ⟨p, hp, hc⟩
    | some q =>
      cases hcw : claim_winnings s.market q s.vault with
      | ok pr =>
        obtain ⟨pay, p'⟩ := pr
        have hstep : stepOp s (.claim b2) =
            { s with parts := updPart s.parts b2 fun x => { x with claimed := true }
                     vault := s.vault - pay } := by
          simp [stepOp, applyOp, hfp, hcw]
        rw [hstep]
        simp only []
        exact findPart_updPart_claimed_mono b2
          (fun x => { x with claimed := true })
          (fun x => rfl) (fun x _ => rfl) hp hc
      | error e =>
        have hstep : stepOp s (.claim b2) = s := by
          simp [stepOp, applyOp, hfp, hcw]
        rw [hstep]
        exact ⟨p, hp, hc⟩
  | refund b2 =>
    cases hfp : findPart s.parts b2 with
    | none =>
      have hstep : stepOp s (.refund b2) = s := by
        simp [stepOp, applyOp, hfp]
      rw [hstep]
      exact ⟨p, hp, hc⟩
    | some q =>
      cases hrf : refund_stake s.market q with
      | ok pr =>
        obtain ⟨amt, p'⟩ := pr
        by_cases hv : s.vault < amt
        · have hstep : stepOp s (.refund b2) = s := by
            simp [stepOp, applyOp, hfp, hrf, hv]
          rw [hstep]
          exact ⟨p, hp, hc⟩
        · have hstep : stepOp s (.refund b2) =
              { s with parts := updPart s.parts b2 fun x => { x with claimed := true }
                       vault := s.vault - amt } := by
            simp [stepOp, applyOp, hfp, hrf, hv]
          rw [hstep]
          simp only []
          exact findPart_updPart_claimed_mono b2
            (fun x => { x with claimed := true })
            (fun x => rfl) (fun x _ => rfl) hp hc
      | error e =>
        have hstep : stepOp s (.refund b2) = s := by
          simp [stepOp, applyOp, hfp, hrf]
        rw [hstep]
        exact ⟨p, hp, hc⟩

theorem runTrace_claimed_mono (ops : List Op) : ∀ (s : MState) (b : Nat)
    (p : Participant), findPart s.parts b = some p → p.claimed = true →
    ∃ p', findPart (runTrace s ops).parts b = some p' ∧ p'.claimed = true := by
  induction ops with
  | nil =>
    intro s b p hp hc
    exact ⟨p, by simpa [runTrace] using hp, hc⟩
  | cons op rest ih =>
    intro s b p hp hc
    obtain ⟨p', hp', hc'⟩ := stepOp_claimed_mono s op b p hp hc
    obtain ⟨p'', hp'', hc''⟩ := ih (stepOp s op) b p' hp' hc'
    exact ⟨p'', by simpa [runTrace] using hp'', hc''⟩

/-- C1: for every resolved market reachable by successful create/bet/resolve
operations, the total of all payouts transferred by successful claim_winnings
calls (the claimed flag lets each participant claim at most once) never
exceeds the market's pool_size at resolution; the remaining dust is a
non-negative Nat by construction. -/
theorem paid_sum_le_pool_size
    (creator idx : Nat) (q : String) (stk : Nat) (dl now : Int)
    (s0 s : MState) (ops ops2 : List Op)
    (h0 : create_market creator idx q stk dl now = .ok s0)
    (h1 : runTrace s0 ops = s) (h2 : s.market.status = .Resolved) :
    paidAlong s0 (ops ++ ops2) ≤ s.market.pool_size := by
  obtain ⟨-, -, -, hs0⟩ := create_market_ok_iff.mp h0
  have hacc := paidAlong_account (ops ++ ops2) s0
  have hv0 : s0.vault = 0 := by rw [hs0]
  have hp0 : s0.market.pool_size = 0 := by rw [hs0]
  have happ : runTrace s0 (ops ++ ops2) = runTrace s ops2 := by
    rw [← h1]
    simp [runTrace, List.foldl_append]
  have hterm : (runTrace s ops2).market = s.market :=
    runTrace_market_terminal ops2 s (Or.inl h2)
  rw [happ, hterm] at hacc
  omega

/-- Witness for C1 at spec scenario A: two bettors stake 10000000 on yes and
20000000 on no, the market resolves yes, and the yes-bettor claims. -/
theorem paid_sum_le_pool_size_witness :
    paidAlong c1s0
        ([Op.bet 1 true 10000000 0, Op.bet 2 false 20000000 0,
          Op.resolve 0 true 1000] ++ [Op.claim 1]) ≤
      c1s1.market.pool_size :=
  paid_sum_le_pool_size 0 0 "q" 10000000 1000 0 c1s0 c1s1
    [Op.bet 1 true 10000000 0, Op.bet 2 false 20000000 0, Op.resolve 0 true 1000]
    [Op.claim 1] rfl rfl rfl

/-- C5: in every state reachable from create_market by a sequence of the
operations, pool_size equals yes_pool plus no_pool, and total_participants
equals the number of distinct bettors holding a Participant record. -/
theorem reachable_pool_and_participant_invariant
    (creator idx : Nat) (q : String) (stk : Nat) (dl now : Int)
    (s0 s : MState) (ops : List Op)
    (h0 : create_market creator idx q stk dl now = .ok s0)
    (h1 : runTrace s0 ops = s) :
    s.market.pool_size = s.market.yes_pool + s.market.no_pool ∧
    s.market.total_participants = ((s.parts.map fun p => p.bettor).dedup).length := by
  obtain ⟨-, -, -, hs0⟩ := create_market_ok_iff.mp h0
  have hinv0 : StateInv s0 := by
    rw [hs0]
    exact ⟨rfl, rfl, List.nodup_nil⟩
  have hinv := runTrace_StateInv ops s0 hinv0
  rw [h1] at hinv
  obtain ⟨hpool, hlen, hnd⟩ := hinv
  refine ⟨hpool, ?_⟩
  rw [List.dedup_eq_self.mpr hnd, List.length_map, ← hlen]

/-- Witness for C5 at spec scenario A after resolution. -/
theorem reachable_pool_and_participant_invariant_witness :
    c1s1.market.pool_size = c1s1.market.yes_pool + c1s1.market.no_pool ∧
    c1s1.market.total_participants =
      ((c1s1.parts.map fun p => p.bettor).dedup).length :=
  reachable_pool_and_participant_invariant 0 0 "q" 10000000 1000 0 c1s0 c1s1
    [Op.bet 1 true 10000000 0, Op.bet 2 false 20000000 0, Op.resolve 0 true 1000]
    rfl rfl

/-- C6: a single operation either leaves the status unchanged or performs one
of the three legal transitions (Pending to Active by a stake, Active to
Resolved by resolve, Pending to Cancelled by cancel); consequently the
terminal statuses Resolved and Cancelled persist along every trace. -/
theorem status_transitions_restricted (s : MState) (op : Op) (ops : List Op) :
    ((stepOp s op).market.status = s.market.status ∨
     (s.market.status = .Pending ∧ (stepOp s op).market.status = .Active) ∨
     (s.market.status = .Active ∧ (stepOp s op).market.status = .Resolved) ∨
     (s.market.status = .Pending ∧ (stepOp s op).market.status = .Cancelled)) ∧
    (s.market.status = .Resolved → (runTrace s ops).market.status = .Resolved) ∧
    (s.market.status = .Cancelled → (runTrace s ops).market.status = .Cancelled) := by
  refine ⟨stepOp_status_cases s op, ?_, ?_⟩
  · intro h
    rw [runTrace_market_terminal ops s (Or.inl h)]
    exact h
  · intro h
    rw [runTrace_market_terminal ops s (Or.inr h)]
    exact h

/-- Witness for C6: a resolved market stays resolved across further
operations, including a successful claim. -/
theorem status_transitions_restricted_witness :
    (runTrace c6s [Op.bet 1 true 10000000 0, Op.claim 1]).market.status =
      MarketStatus.Resolved :=
  (status_transitions_restricted c6s (Op.cancel 0)
    [Op.bet 1 true 10000000 0, Op.claim 1]).2.1 rfl

/-- C7: resolve_market succeeds exactly when the resolver is the creator, the
status is Active, and the clock is at or past the deadline; on success it sets
status Resolved and outcome Some(outcome) and touches nothing else; a Pending
market can never be resolved. -/
theorem resolve_market_spec (s : MState) (r : Nat) (oc : Bool) (now : Int) :
    ((∃ s', resolve_market s r oc now = .ok s') ↔
      (r = s.market.creator ∧ s.market.status = .Active ∧ s.market.deadline ≤ now)) ∧
    (∀ s', resolve_market s r oc now = .ok s' →
      s'.market.status = .Resolved ∧ s'.market.outcome = some oc ∧
      s'.market.pool_size = s.market.pool_size ∧ s'.parts = s.parts ∧
      s'.vault = s.vault) ∧
    (s.market.status = .Pending → ∀ s', resolve_market s r oc now ≠ .ok s') := by
  refine ⟨⟨?_, ?_⟩, ?_, ?_⟩
  · rintro ⟨s', hs'⟩
    obtain ⟨ha, hb, hc2, -⟩ := resolve_market_ok_iff.mp hs'
    exact ⟨ha, hb, hc2⟩
  · rintro ⟨ha, hb, hc2⟩
    exact ⟨_, resolve_market_ok_iff.mpr ⟨ha, hb, hc2, rfl⟩⟩
  · intro s' h
    obtain ⟨-, -, -, hs'⟩ := resolve_market_ok_iff.mp h
    subst hs'
    exact ⟨rfl, rfl, rfl, rfl, rfl⟩
  · intro hpend s' h
    obtain ⟨-, hact, -, -⟩ := resolve_market_ok_iff.mp h
    rw [hpend] at hact
    exact absurd hact (by simp)

/-- Witness for C7: the creator resolves an Active market at its deadline,
while a Pending market cannot be resolved. -/
theorem resolve_market_spec_witness :
    (∃ s', resolve_market c7s 0 true 1000 = .ok s') ∧
    resolve_market c7pending 0 true 1000 ≠ .ok c7s :=
  ⟨(resolve_market_spec c7s 0 true 1000).1.mpr ⟨rfl, rfl, by decide⟩,
   (resolve_market_spec c7pending 0 true 1000).2.2 rfl c7s⟩

/-- C9: create_market succeeds exactly when the question is at most 200 units,
the stake is at least the 10000000-lamport minimum (so the exact threshold
succeeds and one unit below fails), and the deadline is strictly in the
future; on success everything is zeroed, status is Pending, outcome unset. -/
theorem create_market_spec (c i : Nat) (q : String) (stk : Nat) (dl now : Int) :
    ((∃ s, create_market c i q stk dl now = .ok s) ↔
      (q.length ≤ 200 ∧ MIN_STAKE ≤ stk ∧ now < dl)) ∧
    (∀ s, create_market c i q stk dl now = .ok s →
      s.market.status = .Pending ∧ s.market.pool_size = 0 ∧
      s.market.yes_count = 0 ∧ s.market.no_count = 0 ∧
      s.market.yes_pool = 0 ∧ s.market.no_pool = 0 ∧
      s.market.total_participants = 0 ∧ s.market.outcome = none) := by
  refine ⟨⟨?_, ?_⟩, ?_⟩
  · rintro ⟨s, hs⟩
    obtain ⟨h1, h2, h3, -⟩ := create_market_ok_iff.mp hs
    exact ⟨h1, h2, h3⟩
  · rintro ⟨h1, h2, h3⟩
    exact ⟨_, create_market_ok_iff.mpr ⟨h1, h2, h3, rfl⟩⟩
  · intro s hs
    obtain ⟨-, -, -, hs'⟩ := create_market_ok_iff.mp hs
    subst hs'
    exact ⟨rfl, rfl, rfl, rfl, rfl, rfl, rfl, rfl⟩

/-- Witness for C9: the 10000000-lamport threshold succeeds exactly and one
lamport below it fails. -/
theorem create_market_spec_witness :
    (∃ s, create_market 0 0 "q" 10000000 1000 0 = .ok s) ∧
    ¬ (∃ s, create_market 0 0 "q" 9999999 1000 0 = .ok s) :=
  ⟨(create_market_spec 0 0 "q" 10000000 1000 0).1.mpr
     ⟨by decide, by decide, by decide⟩,
   fun hex =>
     absurd ((create_market_spec 0 0 "q" 9999999 1000 0).1.mp hex).2.1 (by decide)⟩

/-- C10: the overflow and division-failure branches of the payout computation
are unreachable: two u64 operands always have a u128 product, and the divisor
is positive by the preceding guard, so the payout computation is total. -/
theorem payout_computation_total (stake pool wp : Nat)
    (h1 : stake < u64Lim) (h2 : pool < u64Lim) (h3 : 0 < wp) :
    checked_mul_u128 stake pool = some (stake * pool) ∧
    checked_div_u128 (stake * pool) wp = some (stake * pool / wp) ∧
    payoutCalc stake pool wp = some (stake * pool / wp) := by
  have hlt : stake * pool < u128Lim := by
    calc stake * pool < u64Lim * u64Lim := Nat.mul_lt_mul'' h1 h2
    _ = u128Lim := by norm_num [u64Lim, u128Lim]
  have hm : checked_mul_u128 stake pool = some (stake * pool) := by
    unfold checked_mul_u128
    rw [if_pos hlt]
  have hd : checked_div_u128 (stake * pool) wp = some (stake * pool / wp) := by
    unfold checked_div_u128
    rw [if_neg (Nat.pos_iff_ne_zero.mp h3)]
  refine ⟨hm, hd, ?_⟩
  unfold payoutCalc
  rw [hm]
  simpa using hd

/-- Witness for C10 at the scenario A payout (stake 10000000, pool 30000000,
winning pool 10000000). -/
theorem payout_computation_total_witness :
    checked_mul_u128 10000000 30000000 = some 300000000000000 ∧
    checked_div_u128 300000000000000 10000000 = some 30000000 ∧
    payoutCalc 10000000 30000000 10000000 = some 30000000 :=
  payout_computation_total 10000000 30000000 10000000
    (by decide) (by decide) (by decide)

/-- Counterexample to C2 as stated: bettor 1 holds a yes-record with stake
10000000, yet a second place_bet with prediction false succeeds (no error),
adds the amount to the yes-record, and credits the no-pool. -/
theorem place_bet_mismatched_prediction_succeeds :
    create_market 0 0 "q" 10000000 1000 0 = .ok c2s0 ∧
    runTrace c2s0 [Op.bet 1 true 10000000 0] = c2s1 ∧
    findPart c2s1.parts 1 =
      some { bettor := 1, prediction := true, stake := 10000000, claimed := false } ∧
    place_bet c2s1 1 false 10000000 0 = .ok c2s2 ∧
    findPart c2s2.parts 1 =
      some { bettor := 1, prediction := true, stake := 20000000, claimed := false } ∧
    c2s2.market.no_pool = 10000000 :=
  ⟨rfl, rfl, rfl, rfl, rfl, rfl⟩

/-- C2 amended: place_bet never compares its prediction argument with an
existing participant record.  For a bettor who already holds a record, the
call succeeds whenever the market is open, the deadline has not passed, and
the amount meets the minimum, for EITHER prediction argument; it adds the
amount to the existing stake, leaves the recorded prediction unchanged, and
credits the pool of the call's (not the record's) side. -/
theorem place_bet_existing_adds_stake (s : MState) (b : Nat) (pr : Bool)
    (stk : Nat) (now : Int) (p : Participant)
    (hp : findPart s.parts b = some p)
    (hst : s.market.status = .Pending ∨ s.market.status = .Active)
    (hd : now < s.market.deadline) (hmin : MIN_STAKE ≤ stk) :
    ∃ s', place_bet s b pr stk now = .ok s' ∧
      findPart s'.parts b = some { p with stake := p.stake + stk } ∧
      (if pr then s'.market.yes_pool = s.market.yes_pool + stk
       else s'.market.no_pool = s.market.no_pool + stk) ∧
      s'.market.total_participants = s.market.total_participants := by
  have hne : ¬ findPart s.parts b = none := by
    rw [hp]
    simp
  refine ⟨_, place_bet_ok_intro pr hst hd hmin, ?_, ?_, ?_⟩
  · simp only [if_neg hne]
    rw [findPart_updPart_self s.parts b
      (fun x => { x with stake := x.stake + stk }) (fun x => rfl), hp]
    rfl
  · by_cases hpr : pr = true
    · subst hpr
      simp
    · rw [Bool.not_eq_true] at hpr
      subst hpr
      simp
  · simp only [if_neg hne]

/-- Witness for C2 amended: the mismatching second bet of the counterexample
state succeeds and increments the stored yes-record. -/
theorem place_bet_existing_adds_stake_witness :
    ∃ s', place_bet c2s1 1 false 10000000 0 = .ok s' ∧
      findPart s'.parts 1 =
        some { bettor := 1, prediction := true, stake := 10000000 + 10000000,
               claimed := false } ∧
      (if false then s'.market.yes_pool = c2s1.market.yes_pool + 10000000
       else s'.market.no_pool = c2s1.market.no_pool + 10000000) ∧
      s'.market.total_participants = c2s1.market.total_participants :=
  place_bet_existing_adds_stake c2s1 1 false 10000000 0
    { bettor := 1, prediction := true, stake := 10000000, claimed := false }
    rfl (Or.inr rfl) (by decide) (by decide)

/-- Counterexample to C3 as stated: on `c3m`/`c3p` (Resolved, outcome present,
unclaimed winner) the true floor of stake times pool over winning pool is
2 to the 125 plus 2 to the 63, which exceeds the escrow (so the claim as
stated requires failure), yet the call succeeds and pays only the low 64 bits
of the quotient, not the floor. -/
theorem claim_winnings_truncates_payout :
    claim_winnings c3m c3p 9223372036854775808 =
      .ok (9223372036854775808,
        { bettor := 1, prediction := true, stake := 9223372036854775808,
          claimed := true }) ∧
    c3p.stake * c3m.pool_size / c3m.yes_pool =
      42535295865117307942145197965825802240 ∧
    (9223372036854775808 : Nat) < 42535295865117307942145197965825802240 :=
  ⟨rfl, rfl, by norm_num⟩

/-- C3 amended: on a Resolved market with outcome present and an unclaimed
winning participant, claim_winnings fails (error MarketNotActive) when the
winning pool is zero, when the TRUNCATED payout is zero, or when the escrow is
below the TRUNCATED payout; otherwise it pays floor(stake times pool_size over
winning_pool) reduced modulo 2 to the 64 — the computation runs in u128 but
the final `as u64` cast keeps only the low 64 bits.  Whenever the winner's
stake is at most the winning pool (in particular in every state where stakes
are consistently accounted), the quotient is below 2 to the 64 and the paid
amount is exactly the floor. -/
theorem claim_winnings_winner_spec (m : Market) (p : Participant) (v : Nat)
    (oc : Bool) (hs : m.status = .Resolved) (ho : m.outcome = some oc)
    (hc : p.claimed = false) (hw : p.prediction = oc)
    (hstake : p.stake < u64Lim) (hpool : m.pool_size < u64Lim) :
    ((if oc then m.yes_pool else m.no_pool) = 0 →
      claim_winnings m p v = .error .MarketNotActive) ∧
    (0 < (if oc then m.yes_pool else m.no_pool) ∧
       (p.stake * m.pool_size / (if oc then m.yes_pool else m.no_pool)) % u64Lim = 0 →
      claim_winnings m p v = .error .MarketNotActive) ∧
    (0 < (if oc then m.yes_pool else m.no_pool) ∧
       0 < (p.stake * m.pool_size / (if oc then m.yes_pool else m.no_pool)) % u64Lim ∧
       v < (p.stake * m.pool_size / (if oc then m.yes_pool else m.no_pool)) % u64Lim →
      claim_winnings m p v = .error .MarketNotActive) ∧
    (0 < (if oc then m.yes_pool else m.no_pool) ∧
       0 < (p.stake * m.pool_size / (if oc then m.yes_pool else m.no_pool)) % u64Lim ∧
       (p.stake * m.pool_size / (if oc then m.yes_pool else m.no_pool)) % u64Lim ≤ v →
      claim_winnings m p v =
        .ok ((p.stake * m.pool_size / (if oc then m.yes_pool else m.no_pool)) % u64Lim,
             { p with claimed := true })) ∧
    (p.stake ≤ (if oc then m.yes_pool else m.no_pool) →
      (p.stake * m.pool_size / (if oc then m.yes_pool else m.no_pool)) % u64Lim =
        p.stake * m.pool_size / (if oc then m.yes_pool else m.no_pool)) := by
  have hlt : p.stake * m.pool_size < u128Lim := by
    calc p.stake * m.pool_size < u64Lim * u64Lim := Nat.mul_lt_mul'' hstake hpool
    _ = u128Lim := by norm_num [u64Lim, u128Lim]
  have hmul : checked_mul_u128 p.stake m.pool_size = some (p.stake * m.pool_size) :=
    checked_mul_u128_eq_some.mpr ⟨hlt, rfl⟩
  unfold claim_winnings
  rw [if_neg (not_not_intro hs), if_neg (show ¬ p.claimed = true by simp [hc]), ho]
  simp only []
  rw [if_neg (not_not_intro hw), hmul]
  simp only []
  refine ⟨?_, ?_, ?_, ?_, ?_⟩
  · intro h0
    rw [if_pos (by omega)]
  · rintro ⟨hwp, hpay0⟩
    rw [if_neg (not_not_intro hwp)]
    rw [checked_div_u128_eq_some.mpr
      (⟨by omega, rfl⟩ :
        (if oc then m.yes_pool else m.no_pool) ≠ 0 ∧
        p.stake * m.pool_size / (if oc then m.yes_pool else m.no_pool) =
          p.stake * m.pool_size / (if oc then m.yes_pool else m.no_pool))]
    simp only []
    rw [if_pos (by omega)]
  · rintro ⟨hwp, hpay, hv⟩
    rw [if_neg (not_not_intro hwp)]
    rw [checked_div_u128_eq_some.mpr
      (⟨by omega, rfl⟩ :
        (if oc then m.yes_pool else m.no_pool) ≠ 0 ∧
        p.stake * m.pool_size / (if oc then m.yes_pool else m.no_pool) =
          p.stake * m.pool_size / (if oc then m.yes_pool else m.no_pool))]
    simp only []
    rw [if_neg (not_not_intro hpay), if_pos (by omega)]
  · rintro ⟨hwp, hpay, hv⟩
    rw [if_neg (not_not_intro hwp)]
    rw [checked_div_u128_eq_some.mpr
      (⟨by omega, rfl⟩ :
        (if oc then m.yes_pool else m.no_pool) ≠ 0 ∧
        p.stake * m.pool_size / (if oc then m.yes_pool else m.no_pool) =
          p.stake * m.pool_size / (if oc then m.yes_pool else m.no_pool))]
    simp only []
    rw [if_neg (not_not_intro hpay), if_neg (by omega)]
  · intro hle
    by_cases hwp : (if oc then m.yes_pool else m.no_pool) = 0
    · rw [hwp] at hle
      interval_cases p.stake
      · simp
    · have hq : p.stake * m.pool_size / (if oc then m.yes_pool else m.no_pool) ≤
          m.pool_size := by
        have h1 : p.stake * m.pool_size ≤
            (if oc then m.yes_pool else m.no_pool) * m.pool_size :=
          Nat.mul_le_mul_right _ hle
        have h2 := Nat.div_le_div_right
          (c := (if oc then m.yes_pool else m.no_pool)) h1
        rwa [Nat.mul_div_cancel_left _ (Nat.pos_of_ne_zero hwp)] at h2
      exact Nat.mod_eq_of_lt (lt_of_le_of_lt hq hpool)

/-- Witness for C3 amended at scenario A: the sole yes-winner of a 30000000
pool with winning pool 10000000 is paid exactly 30000000. -/
theorem claim_winnings_winner_spec_witness :
    claim_winnings c3wm c3wp 30000000 =
      .ok (30000000,
        { bettor := 1, prediction := true, stake := 10000000, claimed := true }) :=
  (claim_winnings_winner_spec c3wm c3wp 30000000 true rfl rfl rfl rfl
    (by decide) (by decide)).2.2.2.1 ⟨by decide, by decide, by decide⟩

/-- Counterexample to C4 as stated: with an unclaimed winner on a resolved
market, an insufficient escrow balance (vault 0, payout 30000000) is rejected
with the lifecycle-state error MarketNotActive, the very kind the claim says
such failures are never mapped to; with a sufficient vault the same call
succeeds, so the escrow check alone caused that error. -/
theorem insufficient_escrow_reports_market_not_active :
    claim_winnings c4m c4p 0 = .error .MarketNotActive ∧
    claim_winnings c4m c4p 30000000 =
      .ok (30000000,
        { bettor := 1, prediction := true, stake := 10000000, claimed := true }) :=
  ⟨rfl, rfl⟩

/-- C4 amended: once the winner checks of claim_winnings pass, every failure
of the payout stage — zero winning pool, multiplication overflow, division
failure, zero payout, insufficient escrow — is reported as the single
lifecycle error MarketNotActive rather than a distinct arithmetic or
integrity error kind. -/
theorem claim_failures_all_market_not_active (m : Market) (p : Participant)
    (v : Nat) (oc : Bool) (hs : m.status = .Resolved) (hc : p.claimed = false)
    (ho : m.outcome = some oc) (hw : p.prediction = oc) (e : PredictDuelError)
    (he : claim_winnings m p v = .error e) : e = .MarketNotActive := by
  unfold claim_winnings at he
  rw [if_neg (not_not_intro hs), if_neg (show ¬ p.claimed = true by simp [hc]),
    ho] at he
  simp only [] at he
  rw [if_neg (not_not_intro hw)] at he
  by_cases h4 : 0 < (if oc then m.yes_pool else m.no_pool)
  · rw [if_neg (not_not_intro h4)] at he
    cases hmul : checked_mul_u128 p.stake m.pool_size with
    | none =>
      rw [hmul] at he
      simp only [] at he
      rw [Except.error.injEq] at he
      exact he.symm
    | some prod =>
      rw [hmul] at he
      simp only [] at he
      cases hdiv : checked_div_u128 prod (if oc then m.yes_pool else m.no_pool) with
      | none =>
        rw [hdiv] at he
        simp only [] at he
        rw [Except.error.injEq] at he
        exact he.symm
      | some qv =>
        rw [hdiv] at he
        simp only [] at he
        by_cases h5 : 0 < qv % u64Lim
        · rw [if_neg (not_not_intro h5)] at he
          by_cases h6 : v ≥ qv % u64Lim
          · rw [if_neg (not_not_intro h6)] at he
            exact absurd he (by simp)
          · rw [if_pos h6] at he
            rw [Except.error.injEq] at he
            exact he.symm
        · rw [if_pos h5] at he
          rw [Except.error.injEq] at he
          exact he.symm
  · rw [if_pos h4] at he
    rw [Except.error.injEq] at he
    exact he.symm

/-- Witness for C4 amended: the concrete insufficient-escrow failure is
reported as MarketNotActive. -/
theorem claim_failures_all_market_not_active_witness :
    PredictDuelError.MarketNotActive = PredictDuelError.MarketNotActive ∧
    claim_winnings c4m c4p 0 = .error PredictDuelError.MarketNotActive :=
  ⟨claim_failures_all_market_not_active c4m c4p 0 true rfl rfl rfl rfl
     PredictDuelError.MarketNotActive rfl, rfl⟩

/-- Counterexample to C8 as stated: after a first successful claim_winnings
(market Resolved, participant now claimed), a refund_stake attempt for the
same participant fails with MarketNotCancelled — the lifecycle error, not the
'already claimed' error — because the status check precedes the claimed
check. -/
theorem refund_after_claim_not_already_claimed_error :
    claim_winnings c8m c8p 30000000 =
      .ok (30000000,
        { bettor := 1, prediction := true, stake := 10000000, claimed := true }) ∧
    refund_stake c8m
      { bettor := 1, prediction := true, stake := 10000000, claimed := true } =
      .error .MarketNotCancelled ∧
    PredictDuelError.MarketNotCancelled ≠ PredictDuelError.AlreadyClaimed :=
  ⟨rfl, rfl, by decide⟩

/-- C8 amended: the claimed flag is one-shot.  A successful claim or refund
starts from claimed false and leaves claimed true; a repeated attempt of the
SAME operation fails with AlreadyClaimed; a cross-operation second attempt
(refund after claim, or claim after refund) fails with that operation's
lifecycle error (MarketNotCancelled or MarketNotResolved), because the status
check runs before the claimed check; and along any trace a claimed
participant record never reverts to unclaimed. -/
theorem claimed_flag_one_shot (m : Market) (p : Participant) (v : Nat)
    (s : MState) (b : Nat) (ops : List Op) :
    (m.status = .Resolved → p.claimed = true →
      claim_winnings m p v = .error .AlreadyClaimed) ∧
    (m.status = .Cancelled → p.claimed = true →
      refund_stake m p = .error .AlreadyClaimed) ∧
    (¬ m.status = .Cancelled → refund_stake m p = .error .MarketNotCancelled) ∧
    (¬ m.status = .Resolved → claim_winnings m p v = .error .MarketNotResolved) ∧
    (∀ pay p', claim_winnings m p v = .ok (pay, p') →
      p.claimed = false ∧ p'.claimed = true) ∧
    (∀ amt p', refund_stake m p = .ok (amt, p') →
      p.claimed = false ∧ p'.claimed = true) ∧
    (findPart s.parts b = some p → p.claimed = true →
      ∃ p', findPart (runTrace s ops).parts b = some p' ∧ p'.claimed = true) := by
  refine ⟨?_, ?_, ?_, ?_, ?_, ?_, ?_⟩
  · intro h1 h2
    unfold claim_winnings
    rw [if_neg (not_not_intro h1), if_pos h2]
  · intro h1 h2
    unfold refund_stake
    rw [if_neg (not_not_intro h1), if_pos h2]
  · intro h1
    unfold refund_stake
    rw [if_pos h1]
  · intro h1
    unfold claim_winnings
    rw [if_pos h1]
  · intro pay p' h
    obtain ⟨-, hc, -, -, -, hp'⟩ := claim_winnings_ok_elim h
    subst hp'
    exact ⟨hc, rfl⟩
  · intro amt p' h
    obtain ⟨-, hc, -, hp'⟩ := refund_stake_ok_elim h
    subst hp'
    exact ⟨hc, rfl⟩
  · intro hp hc
    exact runTrace_claimed_mono ops s b p hp hc

/-- Witness for C8 amended: a second claim on the already-claimed participant
of `c8m` fails with AlreadyClaimed. -/
theorem claimed_flag_one_shot_witness :
    claim_winnings c8m
      { bettor := 1, prediction := true, stake := 10000000, claimed := true }
      30000000 = .error .AlreadyClaimed :=
  (claimed_flag_one_shot c8m
    { bettor := 1, prediction := true, stake := 10000000, claimed := true }
    30000000 c8s 1 []).1 rfl rfl
